import Mathlib

/-!
Verification of the WebMint deployment pipeline (the CloudFlare Pages
service `src/lib/cloudflare-pages.ts` together with its streaming route
wrappers).  Strings are modelled as lists of characters (`Str`); JavaScript
string operations (`toLowerCase`, `trim`, regex replaces, `substring`) are
translated operation by operation.  Remote calls and local disk writes are
modelled by an explicit `World` oracle giving the outcome of each external
interaction, and `deployPage` is the faithful sequencing of the source:
it returns the result object together with the trace of external steps it
performed.  Library functions (md5, sha256, base64, JSZip generation,
JSON.stringify) are parameters of the embedding, collected in `CodecLib`;
zip generation is modelled as a deterministic function of the entry list.
-/

set_option maxRecDepth 100000

namespace WebMint

/-- JavaScript strings modelled as lists of characters. -/
abbrev Str := List Char

/-- Character list of a Lean string literal. -/
def str (s : String) : Str := s.data

/-- Lowercase-alphanumeric test, the regex class `[a-z0-9]` compared by
code point as JavaScript does. -/
def isLowerAlnum (c : Char) : Bool :=
  (decide (97 ≤ c.toNat) && decide (c.toNat ≤ 122))
    || (decide (48 ≤ c.toNat) && decide (c.toNat ≤ 57))

/-- Characters kept by the regex replace `[^a-z0-9-]` in
`sanitizeProjectName`: lowercase alphanumerics and the hyphen. -/
def isValidChar (c : Char) : Bool :=
  isLowerAlnum c || decide (c = '-')

/-- Whitespace recognised by `String.prototype.trim`, modelled over the
ASCII whitespace characters. -/
def isJsSpace (c : Char) : Bool :=
  decide (c = ' ') || decide (c = '\t') || decide (c = '\n')
    || decide (c = '\r') || decide (c = '\x0b') || decide (c = '\x0c')

/-- ASCII model of `String.prototype.toLowerCase` applied to one character. -/
def toLowerChar (c : Char) : Char :=
  if 65 ≤ c.toNat ∧ c.toNat ≤ 90 then Char.ofNat (c.toNat + 32) else c

/-- Drop the maximal suffix of characters satisfying `p` (the mirror image
of `List.dropWhile`, used to model trailing trims). -/
def dropTrailing (p : Char → Bool) : Str → Str
  | [] => []
  | c :: rest =>
    if (dropTrailing p rest).isEmpty then (if p c then [] else [c])
    else c :: dropTrailing p rest

/-- Model of `String.prototype.trim`. -/
def jsTrim (s : Str) : Str :=
  dropTrailing isJsSpace (s.dropWhile isJsSpace)

/-- The regex replace `.replace(/[^a-z0-9-]/g, '-')`. -/
def replaceInvalid (s : Str) : Str :=
  s.map (fun c => if isValidChar c then c else '-')

/-- The regex replace of `-+` (global) by `-`: every run of hyphens is
collapsed to a single hyphen. -/
def collapseHyphens : Str → Str
  | [] => []
  | [c] => [c]
  | c :: d :: rest =>
    if c = '-' ∧ d = '-' then collapseHyphens (d :: rest)
    else c :: collapseHyphens (d :: rest)

/-- The regex replace of `^-+|-+$` (global) by the empty string: remove
leading and trailing runs of hyphens. -/
def stripEdgeHyphens (s : Str) : Str :=
  dropTrailing (fun c => decide (c = '-')) (s.dropWhile (fun c => decide (c = '-')))

/-- The regex test `/^[a-z0-9]/`. -/
def startsWithAlnum : Str → Bool
  | [] => false
  | c :: _ => isLowerAlnum c

/-- The regex test `/[a-z0-9]$/`. -/
def endsWithAlnum (s : Str) : Bool :=
  match s.getLast? with
  | some c => isLowerAlnum c
  | none => false

/-- The first, purely character-rewriting half of `sanitizeProjectName`:
lowercase, trim, replace every character outside `[a-z0-9-]` by a hyphen,
collapse hyphen runs, strip leading and trailing hyphens. -/
def sanitizeCore (name : Str) : Str :=
  stripEdgeHyphens (collapseHyphens (replaceInvalid (jsTrim (name.map toLowerChar))))

/-- The second half of `sanitizeProjectName`: the alphanumeric-edge fixups,
the length-58 truncation and the minimum-length wrap, in source order. -/
def sanitizeFinalize (s0 : Str) : Str :=
  let s1 := if startsWithAlnum s0 then s0 else str "webmint-" ++ s0
  let s2 := if endsWithAlnum s1 then s1 else s1 ++ str "-app"
  let s3 := if 58 < s2.length then s2.take 55 ++ str "-app" else s2
  if s3.length < 3 then str "webmint-" ++ s3 ++ str "-app" else s3

/-- `CloudFlarePagesService.sanitizeProjectName` from
`src/lib/cloudflare-pages.ts`. -/
def sanitizeProjectName (name : Str) : Str :=
  sanitizeFinalize (sanitizeCore name)

/-- Absence of two consecutive hyphens. -/
def noDoubleHyphen : Str → Bool
  | [] => true
  | [_] => true
  | c :: d :: rest => !(decide (c = '-') && decide (d = '-')) && noDoubleHyphen (d :: rest)

/-- The record built by `prepareDeploymentFiles`: an `index.html` entry is
always assigned; `styles.css` and `script.js` entries are optional. -/
structure DeploymentFiles where
  indexHtml : Str
  stylesCss : Option Str
  scriptJs : Option Str
deriving DecidableEq

/-- Enumeration of the record in JavaScript insertion order
(`index.html`, then `styles.css` when present, then `script.js` when
present), as `Object.entries` yields it. -/
def DeploymentFiles.entries (f : DeploymentFiles) : List (Str × Str) :=
  (str "index.html", f.indexHtml) ::
    ((match f.stylesCss with
      | some c => [(str "styles.css", c)]
      | none => []) ++
     (match f.scriptJs with
      | some c => [(str "script.js", c)]
      | none => []))

/-- `createFullHtmlPage`: the full document template, with the CSS and JS
inlined or linked depending on the 500-character threshold. -/
def createFullHtmlPage (html css js : Str) : Str :=
  let cssOverLimit := css ≠ [] ∧ 500 < (jsTrim css).length
  let jsOverLimit := js ≠ [] ∧ 500 < (jsTrim js).length
  let cssTag :=
    if cssOverLimit then str "<link rel=\"stylesheet\" href=\"styles.css\">"
    else if css ≠ [] then str "<style>" ++ css ++ str "</style>" else []
  let jsTag :=
    if jsOverLimit then str "<script src=\"script.js\"></script>"
    else if js ≠ [] then str "<script>" ++ js ++ str "</script>" else []
  str "<!DOCTYPE html>\n<html lang=\"en\">\n<head>\n    <meta charset=\"UTF-8\">\n    <meta name=\"viewport\" content=\"width=device-width, initial-scale=1.0\">\n    <title>Generated Page</title>\n    <script src=\"https://cdn.tailwindcss.com\"></script>\n    "
    ++ cssTag
    ++ str "\n</head>\n<body>\n    "
    ++ html
    ++ str "\n    "
    ++ jsTag
    ++ str "\n</body>\n</html>"

/-- `prepareDeploymentFiles`: always an `index.html` built by
`createFullHtmlPage`; `styles.css` and `script.js` only when the input is
truthy and non-empty after trimming. -/
def prepareDeploymentFiles (html css js : Str) : DeploymentFiles :=
  { indexHtml := createFullHtmlPage html css js
  , stylesCss :=
      if css ≠ [] ∧ 0 < (jsTrim css).length then some (jsTrim css) else none
  , scriptJs :=
      if js ≠ [] ∧ 0 < (jsTrim js).length then some (jsTrim js) else none }

/-- The library functions the service calls: content digests, base64
transport encoding, JSZip archive generation (modelled deterministic in the
entry list) and the two `JSON.stringify` renderings (compact, and
pretty-printed with indent 2) of the audit manifest. -/
structure CodecLib where
  md5 : Str → Str
  sha256 : Str → Str
  base64 : Str → Str
  zipOf : List (Str × Str) → Str
  jsonCompact : List (Str × Str) → Str
  jsonPretty : List (Str × Str) → Str

/-- The audit manifest `{ files: { name: { sha256 } } }`, represented as
the association list of file name and sha256 digest in entry order. -/
def auditManifest (lib : CodecLib) (f : DeploymentFiles) : List (Str × Str) :=
  f.entries.map (fun e => (e.1, lib.sha256 e.2))

/-- One element of the `uploadFiles` array: `key` is the md5 upload key,
`valueB64` the transported base64 text, `raw` the bytes the provider stores
after decoding (the upload is flagged `base64: true`), and the content
type. -/
structure UploadEntry where
  key : Str
  valueB64 : Str
  raw : Str
  contentType : Str
deriving DecidableEq

/-- The upload element for `index.html`. -/
def indexUpload (lib : CodecLib) (f : DeploymentFiles) : UploadEntry :=
  { key := lib.md5 f.indexHtml, valueB64 := lib.base64 f.indexHtml
  , raw := f.indexHtml, contentType := str "text/html" }

/-- The upload elements for `script.js`: present only when the record has
the entry with truthy (non-empty) content. -/
def scriptUploads (lib : CodecLib) (f : DeploymentFiles) : List UploadEntry :=
  match f.scriptJs with
  | some c =>
    if c ≠ [] then
      [{ key := lib.md5 c, valueB64 := lib.base64 c, raw := c
       , contentType := str "application/javascript" }]
    else []
  | none => []

/-- The upload elements for `styles.css`, analogous to `scriptUploads`. -/
def styleUploads (lib : CodecLib) (f : DeploymentFiles) : List UploadEntry :=
  match f.stylesCss with
  | some c =>
    if c ≠ [] then
      [{ key := lib.md5 c, valueB64 := lib.base64 c, raw := c
       , contentType := str "text/css" }]
    else []
  | none => []

/-- The upload element for `manifest.json`: its key is the md5 of the
compact `JSON.stringify` of the audit manifest, while the transported
bytes are the pretty rendering (`JSON.stringify(manifest, null, 2)`). -/
def manifestUpload (lib : CodecLib) (f : DeploymentFiles) : UploadEntry :=
  { key := lib.md5 (lib.jsonCompact (auditManifest lib f))
  , valueB64 := lib.base64 (lib.jsonPretty (auditManifest lib f))
  , raw := lib.jsonPretty (auditManifest lib f)
  , contentType := str "application/json" }

/-- The upload element for the zip archive. -/
def zipUpload (lib : CodecLib) (f : DeploymentFiles) : UploadEntry :=
  { key := lib.md5 (lib.zipOf f.entries)
  , valueB64 := lib.base64 (lib.zipOf f.entries)
  , raw := lib.zipOf f.entries, contentType := str "application/zip" }

/-- The `uploadFiles` array of `deployPage`, in source order: `index.html`,
`script.js` when present with truthy content, `styles.css` likewise, then
`manifest.json` and the zip archive. -/
def buildUploadEntries (lib : CodecLib) (f : DeploymentFiles) : List UploadEntry :=
  [indexUpload lib f] ++ scriptUploads lib f ++ styleUploads lib f
    ++ [manifestUpload lib f, zipUpload lib f]

/-- The `manifestData` record submitted at deployment creation: a slash
path and an md5 digest per prepared file, then the zip entry, then
`manifest.json` (whose digest is the md5 of the pretty rendering). -/
def buildManifestData (lib : CodecLib) (f : DeploymentFiles) (pn : Str) :
    List (Str × Str) :=
  (f.entries.map (fun e => ('/' :: e.1, lib.md5 e.2)))
    ++ [('/' :: (pn ++ str "-deployment.zip"), lib.md5 (lib.zipOf f.entries))]
    ++ [(str "/manifest.json", lib.md5 (lib.jsonPretty (auditManifest lib f)))]

/-- The model of `url.replace(regex, '$1')` with regex `^[^.]+\.(.*)$`:
`afterFirstDot` finds the remainder after the first dot. -/
def afterFirstDot : Str → Option Str
  | [] => none
  | c :: rest => if c = '.' then some rest else afterFirstDot rest

/-- URL normalization used on both deployment result paths: the regex
`^[^.]+\.(.*)$` needs at least one non-dot character and then a dot, so a
string that is empty, starts with a dot or contains no dot is unchanged;
otherwise everything through the first dot is removed. -/
def stripFirstLabel (s : Str) : Str :=
  match s with
  | [] => []
  | c :: rest =>
    if c = '.' then c :: rest
    else
      match afterFirstDot (c :: rest) with
      | some r => r
      | none => c :: rest

/-- The deployment-creation endpoint URL built by `deployPage`; by the
fetch semantics the response's `url` property equals this request URL. -/
def deployEndpoint (accountId pn : Str) : Str :=
  str "https://api.cloudflare.com/client/v4/accounts/" ++ accountId
    ++ str "/pages/projects/" ++ pn ++ str "/deployments"

/-- Outcome of the SDK `pages.projects.get` call: success, an error whose
message contains `404`, or any other thrown error. -/
inductive ProjectGetOutcome
  | found
  | err404
  | errOther (msg : Str)
deriving DecidableEq

/-- Outcome of an awaited external call: a value, or a thrown error whose
message is recorded. -/
inductive CallOutcome (α : Type)
  | ok (val : α)
  | thrown (msg : Str)
deriving DecidableEq

/-- The parsed upload-token response: `ok` status of the fetch, the
`result.jwt` body on success, and the stringified error body otherwise. -/
structure TokenResp where
  ok : Bool
  jwt : Str
  errText : Str
deriving DecidableEq

/-- The parsed bulk-upload response. -/
structure UploadResp where
  ok : Bool
  errText : Str
deriving DecidableEq

/-- The optional `result` object of a deployment-creation response body. -/
structure DeployBody where
  id : Option Str
  url : Option Str
  createdOn : Option Str
deriving DecidableEq

/-- The parsed deployment-creation response: `ok` status and the optional
`result` object of its JSON body. -/
structure DeployResp where
  ok : Bool
  result : Option DeployBody
deriving DecidableEq

/-- The oracle for one deployment attempt: the outcome of every external
interaction `deployPage` can perform, in program order, plus the clock
value used for `new Date().toISOString()`. -/
structure World where
  projectGet : ProjectGetOutcome
  projectCreate : CallOutcome Unit
  backup : CallOutcome Unit
  tokenFetch : CallOutcome TokenResp
  uploadCall : CallOutcome UploadResp
  deployCreate : CallOutcome DeployResp
  nowISO : Str

/-- The external steps `deployPage` performs, recorded in order. -/
inductive Step
  | projectGet
  | projectCreate
  | backupWrite
  | tokenFetch
  | uploadCall
  | deployCreate
deriving DecidableEq

/-- The object `deployPage` returns, with every field of the three return
shapes (success, partial success, failure) made optional. -/
structure DeployResult where
  success : Bool
  deploymentId : Option Str
  url : Option Str
  projectName : Option Str
  createdAt : Option Str
  method : Option Str
  warning : Option Str
  error : Option Str
deriving DecidableEq

/-- The failure object built in the outer catch of `deployPage`. -/
def failResult (m : Str) : DeployResult :=
  { success := false, deploymentId := none, url := none, projectName := none
  , createdAt := none, method := none, warning := none, error := some m }

/-- The tail of `deployPage` after project resolution: prepare files,
local backup (a throw here propagates to the outer catch), upload-token
fetch, bulk upload, deployment creation, with the partial-success return
when only the last step has a non-ok status. -/
def deployAfterResolve (lib : CodecLib) (w : World) (accountId : Str)
    (pn : Str) (inp : Str × Str × Str) (trace : List Step) :
    DeployResult × List Step :=
  let deploymentFiles := prepareDeploymentFiles inp.1 inp.2.1 inp.2.2
  match w.backup with
  | .thrown m => (failResult m, trace ++ [Step.backupWrite])
  | .ok _ =>
    match w.tokenFetch with
    | .thrown m => (failResult m, trace ++ [Step.backupWrite, Step.tokenFetch])
    | .ok tr =>
      if tr.ok = false then
        (failResult (str "Failed to get upload token: " ++ tr.errText),
         trace ++ [Step.backupWrite, Step.tokenFetch])
      else
        let _uploads := buildUploadEntries lib deploymentFiles
        match w.uploadCall with
        | .thrown m =>
          (failResult m,
           trace ++ [Step.backupWrite, Step.tokenFetch, Step.uploadCall])
        | .ok ur =>
          if ur.ok = false then
            (failResult (str "Failed to upload files: " ++ ur.errText),
             trace ++ [Step.backupWrite, Step.tokenFetch, Step.uploadCall])
          else
            let _manifestData := buildManifestData lib deploymentFiles pn
            match w.deployCreate with
            | .thrown m =>
              (failResult m,
               trace ++ [Step.backupWrite, Step.tokenFetch, Step.uploadCall,
                 Step.deployCreate])
            | .ok dr =>
              if dr.ok = false then
                ({ success := true
                 , deploymentId := some (str "uploaded")
                 , url := some (stripFirstLabel (deployEndpoint accountId pn))
                 , projectName := some pn
                 , createdAt := some w.nowISO
                 , method := some (str "direct-upload")
                 , warning := some (str "Files uploaded but deployment creation failed")
                 , error := none },
                 trace ++ [Step.backupWrite, Step.tokenFetch, Step.uploadCall,
                   Step.deployCreate])
              else
                let cleanUrl : Option Str :=
                  match dr.result with
                  | some b =>
                    (match b.url with
                     | some u => some (stripFirstLabel u)
                     | none => none)
                  | none => none
                ({ success := true
                 , deploymentId := some
                     (match dr.result with
                      | some b =>
                        (match b.id with
                         | some i => if i = [] then str "created" else i
                         | none => str "created")
                      | none => str "created")
                 , url := some (str "https://"
                     ++ (match cleanUrl with
                         | some u => u
                         | none => str "undefined"))
                 , projectName := some pn
                 , createdAt := some
                     (match dr.result with
                      | some b =>
                        (match b.createdOn with
                         | some t => if t = [] then w.nowISO else t
                         | none => w.nowISO)
                      | none => w.nowISO)
                 , method := some (str "direct-upload")
                 , warning := none
                 , error := none },
                 trace ++ [Step.backupWrite, Step.tokenFetch, Step.uploadCall,
                   Step.deployCreate])

/-- The project name used by `deployPage`: the `webmint-app` default when
the argument is null or empty (JavaScript truthiness), otherwise the
sanitized caller-supplied name. -/
def finalProjectNameOf (projectName : Option Str) : Str :=
  match projectName with
  | some n => if n = [] then str "webmint-app" else sanitizeProjectName n
  | none => str "webmint-app"

/-- `CloudFlarePagesService.deployPage`, returning the result object and
the ordered trace of external steps performed.  The project name falls
back to `webmint-app` when the argument is null or empty (JavaScript
truthiness), and is sanitized otherwise; a non-404 project-get error or a
throwing project creation lands in the outer catch. -/
def deployPage (lib : CodecLib) (w : World) (accountId : Str)
    (projectName : Option Str) (inp : Str × Str × Str) :
    DeployResult × List Step :=
  let finalProjectName := finalProjectNameOf projectName
  match w.projectGet with
  | .errOther m => (failResult m, [Step.projectGet])
  | .err404 =>
    (match w.projectCreate with
     | .thrown m => (failResult m, [Step.projectGet, Step.projectCreate])
     | .ok _ =>
       deployAfterResolve lib w accountId finalProjectName inp
         [Step.projectGet, Step.projectCreate])
  | .found =>
    deployAfterResolve lib w accountId finalProjectName inp [Step.projectGet]

/-- The server-sent events of the streaming deploy endpoints; `doneMark`
is the closing `[DONE]` frame. -/
inductive DeployEvent
  | statusEv (message : Str) (progress : Nat)
  | completeEv (progress : Nat)
  | errorEv (error : Option Str)
  | doneMark
deriving DecidableEq

/-- Event classification: the terminal events are `complete` and `error`. -/
def isTerminal : DeployEvent → Bool
  | .completeEv _ => true
  | .errorEv _ => true
  | _ => false

/-- The event sequence written by the `ReadableStream` of the Next.js
deploy route (`src/app/api/deploy/route.ts`), as a function of the final
project name and the `deployPage` result. -/
def postStreamEvents (pn : Str) (r : DeployResult) : List DeployEvent :=
  [ DeployEvent.statusEv (str "Preparing deployment...") 10
  , DeployEvent.statusEv (str "Deploying to project: " ++ pn) 30
  , DeployEvent.statusEv (str "Uploading files to CloudFlare...") 60 ]
    ++ (if r.success then [DeployEvent.completeEv 100]
        else [DeployEvent.errorEv r.error])
    ++ [DeployEvent.doneMark]

/-- The event sequence written by the `ReadableStream` of the Remix deploy
action: two fixed statuses, a probe of the project (silent on a non-404
probe error), an upload status, then either a processing status and the
completion event, or the error event; always closed by `[DONE]`. -/
def actionStreamEvents (probe : ProjectGetOutcome) (pn : Str)
    (r : DeployResult) : List DeployEvent :=
  [ DeployEvent.statusEv (str "Preparing deployment...") 10
  , DeployEvent.statusEv (str "Files prepared, checking CloudFlare project...") 30 ]
    ++ (match probe with
        | .found =>
          [DeployEvent.statusEv
            (str "Project " ++ pn ++ str " exists, updating...") 50]
        | .err404 =>
          [DeployEvent.statusEv
            (str "Creating new project " ++ pn ++ str "...") 50]
        | .errOther _ => [])
    ++ [DeployEvent.statusEv (str "Uploading files to CloudFlare Pages...") 70]
    ++ (if r.success then
          [ DeployEvent.statusEv (str "Deployment uploaded, processing...") 85
          , DeployEvent.completeEv 100 ]
        else [DeployEvent.errorEv r.error])
    ++ [DeployEvent.doneMark]

/-- The progress values carried by the status events, in emission order. -/
def statusProgresses (evts : List DeployEvent) : List Nat :=
  evts.filterMap
    (fun e =>
      match e with
      | .statusEv _ p => some p
      | _ => none)

/-- Non-decreasing test on a list of progress values. -/
def nonDecreasing : List Nat → Bool
  | [] => true
  | [_] => true
  | a :: b :: r => decide (a ≤ b) && nonDecreasing (b :: r)

/-- The number of terminal events in a stream. -/
def terminalCount (evts : List DeployEvent) : Nat :=
  (evts.filter isTerminal).length

/-- Shape of a well-formed attempt stream: a closing `[DONE]` frame,
preceded by exactly one terminal event, preceded only by status events. -/
def streamShapeOk (evts : List DeployEvent) : Bool :=
  match evts.reverse with
  | .doneMark :: t :: pre =>
    isTerminal t
      && pre.all
        (fun e =>
          match e with
          | .statusEv _ _ => true
          | _ => false)
  | _ => false

/-- A sample instantiation of the library functions, used to evaluate the
embedding at concrete inputs. -/
def sampleLib : CodecLib :=
  { md5 := fun s => 'm' :: s
  , sha256 := fun s => 's' :: s
  , base64 := fun s => 'b' :: s
  , zipOf := fun l => 'z' :: l.foldr (fun e acc => e.1 ++ e.2 ++ acc) []
  , jsonCompact := fun l => 'c' :: l.foldr (fun e acc => e.1 ++ e.2 ++ acc) []
  , jsonPretty := fun l => 'p' :: l.foldr (fun e acc => e.1 ++ e.2 ++ acc) [] }

/-- A token response with ok status. -/
def okTokenResp : TokenResp := { ok := true, jwt := str "jwt", errText := [] }

/-- An upload response with ok status. -/
def okUploadResp : UploadResp := { ok := true, errText := [] }

/-- A deployment-creation response body as the provider returns it. -/
def okDeployBody : DeployBody :=
  { id := some (str "dep123")
  , url := some (str "https://c678f41b.testing-clg.pages.dev")
  , createdOn := some (str "2026-10-11T00:00:00Z") }

/-- A world in which every external interaction succeeds. -/
def successWorld : World :=
  { projectGet := .found, projectCreate := .ok (), backup := .ok ()
  , tokenFetch := .ok okTokenResp, uploadCall := .ok okUploadResp
  , deployCreate := .ok { ok := true, result := some okDeployBody }
  , nowISO := str "2026-10-11T00:00:00Z" }

/-- A world in which everything succeeds except the deployment-creation
call, which returns a non-success status. -/
def createFailWorld : World :=
  { successWorld with deployCreate := .ok { ok := false, result := none } }

/-- A world in which the local backup or zip write throws. -/
def backupFailWorld : World :=
  { successWorld with backup := .thrown (str "EACCES: permission denied") }

/-- A world in which the upload-token fetch returns a non-success status. -/
def tokenFailWorld : World :=
  { successWorld with
      tokenFetch := .ok { ok := false, jwt := [], errText := str "auth error" } }

/-- A world in which the bulk upload returns a non-success status. -/
def uploadFailWorld : World :=
  { successWorld with
      uploadCall := .ok { ok := false, errText := str "bad payload" } }

/-- A sample input triple of html, css and js. -/
def sampleInp : Str × Str × Str := (str "<h1>Hello</h1>", str "h1 color", [])

/-!  Theorems.  -/

lemma afterFirstDot_append (a b : Str) (h : ∀ c ∈ a, ¬ c = '.') :
    afterFirstDot (a ++ '.' :: b) = some b := by
  induction a with
  | nil => simp [afterFirstDot]
  | cons c rest ih =>
    have hc : ¬ c = '.' := h c (by simp)
    simpa [afterFirstDot, hc] using ih (fun d hd => h d (by simp [hd]))

lemma afterFirstDot_none (s : Str) (h : ∀ c ∈ s, ¬ c = '.') :
    afterFirstDot s = none := by
  induction s with
  | nil => simp [afterFirstDot]
  | cons c rest ih =>
    have hc : ¬ c = '.' := h c (by simp)
    simpa [afterFirstDot, hc] using ih (fun d hd => h d (by simp [hd]))

lemma stripFirstLabel_append (a b : Str) (ha : a ≠ [])
    (h : ∀ c ∈ a, ¬ c = '.') : stripFirstLabel (a ++ '.' :: b) = b := by
  cases a with
  | nil => exact absurd rfl ha
  | cons c rest =>
    have hc : ¬ c = '.' := h c (by simp)
    have hd := afterFirstDot_append (c :: rest) b h
    rw [List.cons_append] at hd ⊢
    simp [stripFirstLabel, hc, hd]

lemma stripFirstLabel_nodot (s : Str) (h : ∀ c ∈ s, ¬ c = '.') :
    stripFirstLabel s = s := by
  cases s with
  | nil => rfl
  | cons c rest =>
    have hc : ¬ c = '.' := h c (by simp)
    have hd := afterFirstDot_none (c :: rest) h
    simp [stripFirstLabel, hc, hd]

lemma strip_deployEndpoint (a p : Str) :
    stripFirstLabel (deployEndpoint a p)
      = str "cloudflare.com/client/v4/accounts/"
          ++ (a ++ (str "/pages/projects/" ++ (p ++ str "/deployments"))) := by
  have h1 : str "https://api.cloudflare.com/client/v4/accounts/"
      = str "https://api" ++ '.' :: str "cloudflare.com/client/v4/accounts/" := by
    decide
  have h2 := stripFirstLabel_append (str "https://api")
    (str "cloudflare.com/client/v4/accounts/"
      ++ (a ++ (str "/pages/projects/" ++ (p ++ str "/deployments"))))
    (by decide) (by decide)
  calc stripFirstLabel (deployEndpoint a p)
      = stripFirstLabel (str "https://api"
          ++ '.' :: (str "cloudflare.com/client/v4/accounts/"
            ++ (a ++ (str "/pages/projects/" ++ (p ++ str "/deployments"))))) := by
        simp [deployEndpoint, h1, List.append_assoc]
    _ = _ := h2

lemma strip_deployEndpoint_ne_nil (a p : Str) :
    stripFirstLabel (deployEndpoint a p) ≠ [] := by
  rw [strip_deployEndpoint]
  intro h
  have h0 : str "cloudflare.com/client/v4/accounts/" = [] :=
    (List.append_eq_nil.mp h).1
  exact absurd h0 (by decide)

/-- C5 (amended): the URL normalization strips exactly the first
dot-delimited label of any URL that starts with a non-dot character and
contains a dot — including a URL with no extra subdomain label — and only
a URL containing no dot is returned unchanged; `deployPage` applies it on
the success path (to the provider's returned URL) and on the
partial-success path (to the deployment request's response URL). -/
theorem C5_url_norm :
    (∀ a b : Str, a ≠ [] → (∀ c ∈ a, ¬ c = '.') →
      stripFirstLabel (a ++ '.' :: b) = b)
    ∧ (∀ s : Str, (∀ c ∈ s, ¬ c = '.') → stripFirstLabel s = s)
    ∧ (∀ (lib : CodecLib) (w : World) (acct : Str) (pno : Option Str)
        (inp : Str × Str × Str) (tr : TokenResp) (ur : UploadResp)
        (dr : DeployResp) (b : DeployBody) (u : Str),
        w.projectGet = ProjectGetOutcome.found →
        w.backup = CallOutcome.ok () →
        w.tokenFetch = CallOutcome.ok tr → tr.ok = true →
        w.uploadCall = CallOutcome.ok ur → ur.ok = true →
        w.deployCreate = CallOutcome.ok dr → dr.ok = true →
        dr.result = some b → b.url = some u →
        (deployPage lib w acct pno inp).1.url
          = some (str "https://" ++ stripFirstLabel u))
    ∧ (∀ (lib : CodecLib) (w : World) (acct : Str) (pno : Option Str)
        (inp : Str × Str × Str) (tr : TokenResp) (ur : UploadResp)
        (dr : DeployResp),
        w.projectGet = ProjectGetOutcome.found →
        w.backup = CallOutcome.ok () →
        w.tokenFetch = CallOutcome.ok tr → tr.ok = true →
        w.uploadCall = CallOutcome.ok ur → ur.ok = true →
        w.deployCreate = CallOutcome.ok dr → dr.ok = false →
        (deployPage lib w acct pno inp).1.url
          = some (stripFirstLabel (deployEndpoint acct (finalProjectNameOf pno)))) := by
  refine ⟨stripFirstLabel_append, stripFirstLabel_nodot, ?_, ?_⟩
  · intro lib w acct pno inp tr ur dr b u hpg hbk htf htr huc hur hdc hdr hres hurl
    simp [deployPage, deployAfterResolve, hpg, hbk, htf, htr, huc, hur, hdc, hdr,
      hres, hurl]
  · intro lib w acct pno inp tr ur dr hpg hbk htf htr huc hur hdc hdr
    simp [deployPage, deployAfterResolve, hpg, hbk, htf, htr, huc, hur, hdc, hdr]

/-- C5 counterexample: a URL with no extra subdomain label is not returned
unchanged — the first label of `myproj.pages.dev` is stripped as well. -/
theorem C5_no_extra_label_still_stripped :
    stripFirstLabel (str "myproj.pages.dev") = str "pages.dev"
      ∧ stripFirstLabel (str "myproj.pages.dev") ≠ str "myproj.pages.dev" := by
  decide

/-- C5 witness: the amended theorem evaluated at concrete inputs, on the
documented example and on the partial-success path of a concrete world. -/
theorem C5_url_norm_witness :
    stripFirstLabel (str "c678f41b" ++ '.' :: str "myproj.pages.dev")
        = str "myproj.pages.dev"
      ∧ (deployPage sampleLib createFailWorld (str "acct") (some (str "demo"))
            sampleInp).1.url
          = some (stripFirstLabel (deployEndpoint (str "acct")
              (finalProjectNameOf (some (str "demo"))))) :=
  ⟨C5_url_norm.1 (str "c678f41b") (str "myproj.pages.dev")
      (by decide) (by decide),
   C5_url_norm.2.2.2 sampleLib createFailWorld (str "acct")
      (some (str "demo")) sampleInp okTokenResp okUploadResp
      { ok := false, result := none }
      rfl rfl rfl rfl rfl rfl rfl rfl⟩

/-- C3 (code bug): on any name whose sanitized core exceeds 58 characters
the truncation branch of `sanitizeProjectName` produces
`substring(0, 55) + "-app"`, a 59-character string, violating the
58-character maximum stated in the function's own comment; shown here on
an input of sixty `a` characters. -/
theorem C3_truncation_exceeds_58 :
    sanitizeProjectName (List.replicate 60 'a')
        = List.replicate 55 'a' ++ str "-app"
      ∧ (sanitizeProjectName (List.replicate 60 'a')).length = 59 := by
  decide

/-- C4 counterexample: sanitization is not idempotent — for the input
consisting of one hyphen the first pass yields `webmint--app` and the
second pass collapses the double hyphen to yield `webmint-app`. -/
theorem C4_not_idempotent :
    sanitizeProjectName (sanitizeProjectName (str "-"))
      ≠ sanitizeProjectName (str "-") := by
  decide

lemma trim_cond_iff (c : Str) :
    (c ≠ [] ∧ 0 < (jsTrim c).length) ↔ jsTrim c ≠ [] := by
  constructor
  · rintro ⟨-, h⟩
    exact List.length_pos.mp h
  · intro h
    refine ⟨?_, List.length_pos.mpr h⟩
    rintro rfl
    exact h rfl

/-- C7: the packaging step always produces an `index.html` entry, and it
produces a `styles.css` (resp. `script.js`) entry exactly when the css
(resp. js) input is non-empty after trimming. -/
theorem C7_package_entries (h c j : Str) :
    (∃ v, (str "index.html", v) ∈ (prepareDeploymentFiles h c j).entries)
    ∧ ((∃ v, (str "styles.css", v) ∈ (prepareDeploymentFiles h c j).entries)
        ↔ jsTrim c ≠ [])
    ∧ ((∃ v, (str "script.js", v) ∈ (prepareDeploymentFiles h c j).entries)
        ↔ jsTrim j ≠ []) := by
  have k1 : str "index.html" ≠ str "styles.css" := by decide
  have k2 : str "index.html" ≠ str "script.js" := by decide
  have k3 : str "styles.css" ≠ str "script.js" := by decide
  by_cases hc : jsTrim c ≠ [] <;> by_cases hj : jsTrim j ≠ [] <;>
    simp_all [prepareDeploymentFiles, DeploymentFiles.entries, trim_cond_iff,
      k1.symm, k2.symm, k3, k3.symm]

/-- C9: for both streaming deploy endpoints (the Remix action and the
Next.js POST route), in every outcome the status events carry
non-decreasing progress values, and the stream consists of status events
followed by exactly one terminal event (complete or error) and the
closing frame. -/
theorem C9_stream_events (probe : ProjectGetOutcome) (pn pn₂ : Str)
    (r r₂ : DeployResult) :
    (nonDecreasing (statusProgresses (actionStreamEvents probe pn r)) = true
      ∧ streamShapeOk (actionStreamEvents probe pn r) = true
      ∧ terminalCount (actionStreamEvents probe pn r) = 1)
    ∧ (nonDecreasing (statusProgresses (postStreamEvents pn₂ r₂)) = true
      ∧ streamShapeOk (postStreamEvents pn₂ r₂) = true
      ∧ terminalCount (postStreamEvents pn₂ r₂) = 1) := by
  cases probe <;> cases hr : r.success <;> cases hr₂ : r₂.success <;>
    simp [actionStreamEvents, postStreamEvents, statusProgresses, nonDecreasing,
      streamShapeOk, isTerminal, terminalCount, List.filterMap_cons, hr, hr₂]

lemma deployAfterResolve_shape (lib : CodecLib) (w : World) (acct pn : Str)
    (inp : Str × Str × Str) (trace : List Step) :
    ((deployAfterResolve lib w acct pn inp trace).1.success = true
        ∧ (deployAfterResolve lib w acct pn inp trace).1.error = none)
      ∨ ((deployAfterResolve lib w acct pn inp trace).1.success = false
        ∧ ∃ m, (deployAfterResolve lib w acct pn inp trace).1.error = some m) := by
  cases hbk : w.backup with
  | thrown m => right; simp [deployAfterResolve, hbk, failResult]
  | ok v =>
    cases htf : w.tokenFetch with
    | thrown m => right; simp [deployAfterResolve, hbk, htf, failResult]
    | ok tr =>
      cases htr : tr.ok with
      | false => right; simp [deployAfterResolve, hbk, htf, htr, failResult]
      | true =>
        cases huc : w.uploadCall with
        | thrown m => right; simp [deployAfterResolve, hbk, htf, htr, huc, failResult]
        | ok ur =>
          cases hur : ur.ok with
          | false =>
            right; simp [deployAfterResolve, hbk, htf, htr, huc, hur, failResult]
          | true =>
            cases hdc : w.deployCreate with
            | thrown m =>
              right
              simp [deployAfterResolve, hbk, htf, htr, huc, hur, hdc, failResult]
            | ok dr =>
              cases hdr : dr.ok with
              | false =>
                left
                simp [deployAfterResolve, hbk, htf, htr, huc, hur, hdc, hdr]
              | true =>
                left
                simp [deployAfterResolve, hbk, htf, htr, huc, hur, hdc, hdr]

/-- C10: for every input and every outcome of the external interactions
(non-success statuses and thrown errors at any step), `deployPage`
returns a result — success with no error field, or failure carrying an
error message — and never propagates a throw to its caller. -/
theorem C10_always_returns_result (lib : CodecLib) (w : World) (acct : Str)
    (pno : Option Str) (inp : Str × Str × Str) :
    ((deployPage lib w acct pno inp).1.success = true
        ∧ (deployPage lib w acct pno inp).1.error = none)
      ∨ ((deployPage lib w acct pno inp).1.success = false
        ∧ ∃ m, (deployPage lib w acct pno inp).1.error = some m) := by
  cases hpg : w.projectGet with
  | errOther m => right; simp [deployPage, hpg, failResult]
  | err404 =>
    cases hpc : w.projectCreate with
    | thrown m => right; simp [deployPage, hpg, hpc, failResult]
    | ok v =>
      have := deployAfterResolve_shape lib w acct (finalProjectNameOf pno) inp
        [Step.projectGet, Step.projectCreate]
      simpa [deployPage, hpg, hpc] using this
  | found =>
    have := deployAfterResolve_shape lib w acct (finalProjectNameOf pno) inp
      [Step.projectGet]
    simpa [deployPage, hpg] using this

/-- C1: when token fetch and bulk upload succeed but deployment creation
returns a non-success status, `deployPage` returns success with a
non-empty url and a non-empty warning instead of an error, and the
streaming route surfaces it as a complete event, never an error event. -/
theorem C1_upload_ok_create_fails (lib : CodecLib) (w : World) (acct : Str)
    (pno : Option Str) (inp : Str × Str × Str) (tr : TokenResp)
    (ur : UploadResp) (dr : DeployResp)
    (hres : w.projectGet = ProjectGetOutcome.found
      ∨ (w.projectGet = ProjectGetOutcome.err404
          ∧ w.projectCreate = CallOutcome.ok ()))
    (hbk : w.backup = CallOutcome.ok ())
    (htf : w.tokenFetch = CallOutcome.ok tr) (htr : tr.ok = true)
    (huc : w.uploadCall = CallOutcome.ok ur) (hur : ur.ok = true)
    (hdc : w.deployCreate = CallOutcome.ok dr) (hdr : dr.ok = false) :
    (deployPage lib w acct pno inp).1.success = true
    ∧ (∃ u, (deployPage lib w acct pno inp).1.url = some u ∧ u ≠ [])
    ∧ (∃ m, (deployPage lib w acct pno inp).1.warning = some m ∧ m ≠ [])
    ∧ (deployPage lib w acct pno inp).1.error = none
    ∧ ∀ pn₂,
        streamShapeOk (postStreamEvents pn₂ (deployPage lib w acct pno inp).1) = true
        ∧ DeployEvent.completeEv 100
            ∈ postStreamEvents pn₂ (deployPage lib w acct pno inp).1
        ∧ ∀ e, DeployEvent.errorEv e
            ∉ postStreamEvents pn₂ (deployPage lib w acct pno inp).1 := by
  have hr : (deployPage lib w acct pno inp).1 =
      { success := true
      , deploymentId := some (str "uploaded")
      , url := some (stripFirstLabel (deployEndpoint acct (finalProjectNameOf pno)))
      , projectName := some (finalProjectNameOf pno)
      , createdAt := some w.nowISO
      , method := some (str "direct-upload")
      , warning := some (str "Files uploaded but deployment creation failed")
      , error := none } := by
    rcases hres with hpg | ⟨hpg, hpc⟩
    · simp [deployPage, deployAfterResolve, hpg, hbk, htf, htr, huc, hur, hdc, hdr]
    · simp [deployPage, deployAfterResolve, hpg, hpc, hbk, htf, htr, huc, hur,
        hdc, hdr]
  refine ⟨by rw [hr],
    ⟨stripFirstLabel (deployEndpoint acct (finalProjectNameOf pno)), by rw [hr],
      strip_deployEndpoint_ne_nil acct _⟩,
    ⟨str "Files uploaded but deployment creation failed", by rw [hr], by decide⟩,
    by rw [hr], ?_⟩
  intro pn₂
  rw [hr]
  refine ⟨?_, ?_, ?_⟩ <;>
    simp [postStreamEvents, streamShapeOk, isTerminal]

/-- C1 witness: the partial-success guarantee evaluated in a concrete
world in which only deployment creation fails. -/
theorem C1_upload_ok_create_fails_witness :
    (deployPage sampleLib createFailWorld (str "acct") (some (str "demo"))
        sampleInp).1.success = true
    ∧ (∃ u, (deployPage sampleLib createFailWorld (str "acct") (some (str "demo"))
        sampleInp).1.url = some u ∧ u ≠ [])
    ∧ (∃ m, (deployPage sampleLib createFailWorld (str "acct") (some (str "demo"))
        sampleInp).1.warning = some m ∧ m ≠ [])
    ∧ (deployPage sampleLib createFailWorld (str "acct") (some (str "demo"))
        sampleInp).1.error = none
    ∧ ∀ pn₂,
        streamShapeOk (postStreamEvents pn₂ (deployPage sampleLib createFailWorld
          (str "acct") (some (str "demo")) sampleInp).1) = true
        ∧ DeployEvent.completeEv 100 ∈ postStreamEvents pn₂
            (deployPage sampleLib createFailWorld (str "acct") (some (str "demo"))
              sampleInp).1
        ∧ ∀ e, DeployEvent.errorEv e ∉ postStreamEvents pn₂
            (deployPage sampleLib createFailWorld (str "acct") (some (str "demo"))
              sampleInp).1 :=
  C1_upload_ok_create_fails sampleLib createFailWorld (str "acct") (some (str "demo"))
    sampleInp okTokenResp okUploadResp { ok := false, result := none }
    (Or.inl rfl) rfl rfl rfl rfl rfl rfl rfl

/-- C2 counterexample: in a world where every remote call would succeed
but the local backup write throws, the attempt fails — `deployPage`
returns a non-success result and never reaches the token, upload or
deployment-creation calls, contradicting the claim that local I/O
failures never abort the attempt. -/
theorem C2_backup_failure_aborts :
    (deployPage sampleLib backupFailWorld (str "acct") (some (str "demo"))
        sampleInp).1.success = false
    ∧ Step.tokenFetch ∉ (deployPage sampleLib backupFailWorld (str "acct")
        (some (str "demo")) sampleInp).2
    ∧ Step.uploadCall ∉ (deployPage sampleLib backupFailWorld (str "acct")
        (some (str "demo")) sampleInp).2
    ∧ Step.deployCreate ∉ (deployPage sampleLib backupFailWorld (str "acct")
        (some (str "demo")) sampleInp).2 := by
  decide

/-- C2 (amended): a failure of the local backup or zip write aborts the
attempt — `deployPage` returns the failure result carrying the I/O error
message, performs no further remote call, and the streaming route
surfaces an error event and no complete event. -/
theorem C2_local_io_failure_is_fatal (lib : CodecLib) (w : World) (acct : Str)
    (pno : Option Str) (inp : Str × Str × Str) (m : Str)
    (hres : w.projectGet = ProjectGetOutcome.found
      ∨ (w.projectGet = ProjectGetOutcome.err404
          ∧ w.projectCreate = CallOutcome.ok ()))
    (hbk : w.backup = CallOutcome.thrown m) :
    (deployPage lib w acct pno inp).1 = failResult m
    ∧ Step.tokenFetch ∉ (deployPage lib w acct pno inp).2
    ∧ Step.uploadCall ∉ (deployPage lib w acct pno inp).2
    ∧ Step.deployCreate ∉ (deployPage lib w acct pno inp).2
    ∧ ∀ pn₂,
        DeployEvent.errorEv (some m)
          ∈ postStreamEvents pn₂ (deployPage lib w acct pno inp).1
        ∧ ∀ p, DeployEvent.completeEv p
            ∉ postStreamEvents pn₂ (deployPage lib w acct pno inp).1 := by
  rcases hres with hpg | ⟨hpg, hpc⟩
  · refine ⟨?_, ?_, ?_, ?_, ?_⟩ <;>
      simp [deployPage, deployAfterResolve, hpg, hbk, postStreamEvents,
        failResult]
  · refine ⟨?_, ?_, ?_, ?_, ?_⟩ <;>
      simp [deployPage, deployAfterResolve, hpg, hpc, hbk, postStreamEvents,
        failResult]

/-- C2 witness: the amended behaviour evaluated in the concrete world
whose backup write throws. -/
theorem C2_local_io_failure_is_fatal_witness :
    (deployPage sampleLib backupFailWorld (str "acct") (some (str "demo"))
        sampleInp).1 = failResult (str "EACCES: permission denied")
    ∧ Step.tokenFetch ∉ (deployPage sampleLib backupFailWorld (str "acct")
        (some (str "demo")) sampleInp).2
    ∧ Step.uploadCall ∉ (deployPage sampleLib backupFailWorld (str "acct")
        (some (str "demo")) sampleInp).2
    ∧ Step.deployCreate ∉ (deployPage sampleLib backupFailWorld (str "acct")
        (some (str "demo")) sampleInp).2
    ∧ ∀ pn₂,
        DeployEvent.errorEv (some (str "EACCES: permission denied"))
          ∈ postStreamEvents pn₂ (deployPage sampleLib backupFailWorld
              (str "acct") (some (str "demo")) sampleInp).1
        ∧ ∀ p, DeployEvent.completeEv p
            ∉ postStreamEvents pn₂ (deployPage sampleLib backupFailWorld
                (str "acct") (some (str "demo")) sampleInp).1 :=
  C2_local_io_failure_is_fatal sampleLib backupFailWorld (str "acct")
    (some (str "demo")) sampleInp (str "EACCES: permission denied")
    (Or.inl rfl) rfl

/-- C8: when the upload-token fetch or the bulk upload returns a
non-success status, the attempt fails: `deployPage` returns a failure
result carrying an error message, the deployment-creation call is never
made, and the streaming route emits an error event and no complete
event. -/
theorem C8_upload_phase_failure_is_fatal (lib : CodecLib) (w : World)
    (acct : Str) (pno : Option Str) (inp : Str × Str × Str)
    (hres : w.projectGet = ProjectGetOutcome.found
      ∨ (w.projectGet = ProjectGetOutcome.err404
          ∧ w.projectCreate = CallOutcome.ok ()))
    (hbk : w.backup = CallOutcome.ok ())
    (hfail : (∃ tr, w.tokenFetch = CallOutcome.ok tr ∧ tr.ok = false)
      ∨ ((∃ tr, w.tokenFetch = CallOutcome.ok tr ∧ tr.ok = true)
          ∧ ∃ ur, w.uploadCall = CallOutcome.ok ur ∧ ur.ok = false)) :
    (deployPage lib w acct pno inp).1.success = false
    ∧ (∃ m, (deployPage lib w acct pno inp).1.error = some m)
    ∧ Step.deployCreate ∉ (deployPage lib w acct pno inp).2
    ∧ ∀ pn₂,
        streamShapeOk (postStreamEvents pn₂ (deployPage lib w acct pno inp).1) = true
        ∧ DeployEvent.errorEv ((deployPage lib w acct pno inp).1.error)
            ∈ postStreamEvents pn₂ (deployPage lib w acct pno inp).1
        ∧ ∀ p, DeployEvent.completeEv p
            ∉ postStreamEvents pn₂ (deployPage lib w acct pno inp).1 := by
  rcases hres with hpg | ⟨hpg, hpc⟩ <;>
    rcases hfail with ⟨tr, htf, htr⟩ | ⟨⟨tr, htf, htr⟩, ur, huc, hur⟩ <;>
    refine ⟨?_, ?_, ?_, fun pn₂ => ⟨?_, ?_, ?_⟩⟩ <;>
    simp [deployPage, deployAfterResolve, hpg, hbk, htf, htr, failResult,
      postStreamEvents, streamShapeOk, isTerminal, *]

/-- C8 witness: the fatal-failure guarantee evaluated in the concrete
world whose upload-token fetch returns a non-success status. -/
theorem C8_upload_phase_failure_is_fatal_witness :
    (deployPage sampleLib tokenFailWorld (str "acct") (some (str "demo"))
        sampleInp).1.success = false
    ∧ (∃ m, (deployPage sampleLib tokenFailWorld (str "acct")
        (some (str "demo")) sampleInp).1.error = some m)
    ∧ Step.deployCreate ∉ (deployPage sampleLib tokenFailWorld (str "acct")
        (some (str "demo")) sampleInp).2
    ∧ ∀ pn₂,
        streamShapeOk (postStreamEvents pn₂ (deployPage sampleLib tokenFailWorld
          (str "acct") (some (str "demo")) sampleInp).1) = true
        ∧ DeployEvent.errorEv ((deployPage sampleLib tokenFailWorld (str "acct")
            (some (str "demo")) sampleInp).1.error)
            ∈ postStreamEvents pn₂ (deployPage sampleLib tokenFailWorld
                (str "acct") (some (str "demo")) sampleInp).1
        ∧ ∀ p, DeployEvent.completeEv p
            ∉ postStreamEvents pn₂ (deployPage sampleLib tokenFailWorld
                (str "acct") (some (str "demo")) sampleInp).1 :=
  C8_upload_phase_failure_is_fatal sampleLib tokenFailWorld (str "acct")
    (some (str "demo")) sampleInp (Or.inl rfl) rfl
    (Or.inl ⟨{ ok := false, jwt := [], errText := str "auth error" }, rfl, rfl⟩)

lemma upload_covers_entry (lib : CodecLib) (f : DeploymentFiles)
    (hst : ∀ x, f.stylesCss = some x → x ≠ [])
    (hsj : ∀ x, f.scriptJs = some x → x ≠ []) :
    ∀ e ∈ f.entries, ∃ u ∈ buildUploadEntries lib f,
      u.raw = e.2 ∧ u.key = lib.md5 e.2 := by
  intro e he
  rcases f with ⟨ix, st, sj⟩
  cases st with
  | none =>
    cases sj with
    | none =>
      simp [DeploymentFiles.entries] at he
      subst he
      exact ⟨indexUpload lib ⟨ix, none, none⟩, by simp [buildUploadEntries], rfl, rfl⟩
    | some csj =>
      have hj : csj ≠ [] := hsj csj rfl
      simp [DeploymentFiles.entries] at he
      rcases he with he | he <;> subst he
      · exact ⟨indexUpload lib ⟨ix, none, some csj⟩,
          by simp [buildUploadEntries], rfl, rfl⟩
      · exact ⟨{ key := lib.md5 csj, valueB64 := lib.base64 csj, raw := csj
               , contentType := str "application/javascript" },
          by simp [buildUploadEntries, scriptUploads, hj], rfl, rfl⟩
  | some cst =>
    have hc : cst ≠ [] := hst cst rfl
    cases sj with
    | none =>
      simp [DeploymentFiles.entries] at he
      rcases he with he | he <;> subst he
      · exact ⟨indexUpload lib ⟨ix, some cst, none⟩,
          by simp [buildUploadEntries], rfl, rfl⟩
      · exact ⟨{ key := lib.md5 cst, valueB64 := lib.base64 cst, raw := cst
               , contentType := str "text/css" },
          by simp [buildUploadEntries, styleUploads, hc], rfl, rfl⟩
    | some csj =>
      have hj : csj ≠ [] := hsj csj rfl
      simp [DeploymentFiles.entries] at he
      rcases he with he | he | he <;> subst he
      · exact ⟨indexUpload lib ⟨ix, some cst, some csj⟩,
          by simp [buildUploadEntries], rfl, rfl⟩
      · exact ⟨{ key := lib.md5 cst, valueB64 := lib.base64 cst, raw := cst
               , contentType := str "text/css" },
          by simp [buildUploadEntries, styleUploads, hc], rfl, rfl⟩
      · exact ⟨{ key := lib.md5 csj, valueB64 := lib.base64 csj, raw := csj
               , contentType := str "application/javascript" },
          by simp [buildUploadEntries, scriptUploads, hj], rfl, rfl⟩

lemma prepare_styles_ne (html css js : Str) :
    ∀ x, (prepareDeploymentFiles html css js).stylesCss = some x → x ≠ [] := by
  intro x hx
  unfold prepareDeploymentFiles at hx
  dsimp at hx
  split at hx
  · cases hx
    exact List.length_pos.mp (by assumption : _ ∧ _).2
  · cases hx

lemma prepare_script_ne (html css js : Str) :
    ∀ x, (prepareDeploymentFiles html css js).scriptJs = some x → x ≠ [] := by
  intro x hx
  unfold prepareDeploymentFiles at hx
  dsimp at hx
  split at hx
  · cases hx
    exact List.length_pos.mp (by assumption : _ ∧ _).2
  · cases hx

/-- C6: the manifest submitted at deployment creation has as its keys
exactly the slash-prefixed names of the prepared files, then the
project-named zip entry and `manifest.json`; element by element it pairs
each prepared file's path with the md5 of that file's own content, the
zip path with the md5 of the zip upload's bytes, and `/manifest.json`
with the md5 of the manifest upload's bytes; and each of those byte
sequences is actually uploaded: every prepared file's content is an
upload element's decoded bytes under the upload key md5(content), and
the zip and manifest upload elements are in the upload array. -/
theorem C6_manifest_keys_and_hashes (lib : CodecLib) (html css js pn : Str) :
    ((buildManifestData lib (prepareDeploymentFiles html css js) pn).map Prod.fst
      = (prepareDeploymentFiles html css js).entries.map (fun e => '/' :: e.1)
        ++ ['/' :: (pn ++ str "-deployment.zip"), str "/manifest.json"])
    ∧ buildManifestData lib (prepareDeploymentFiles html css js) pn
        = (prepareDeploymentFiles html css js).entries.map
            (fun e => ('/' :: e.1, lib.md5 e.2))
          ++ [('/' :: (pn ++ str "-deployment.zip"),
                lib.md5 (zipUpload lib (prepareDeploymentFiles html css js)).raw),
              (str "/manifest.json",
                lib.md5 (manifestUpload lib (prepareDeploymentFiles html css js)).raw)]
    ∧ (∀ e ∈ (prepareDeploymentFiles html css js).entries,
        ∃ u ∈ buildUploadEntries lib (prepareDeploymentFiles html css js),
          u.raw = e.2 ∧ u.key = lib.md5 e.2)
    ∧ zipUpload lib (prepareDeploymentFiles html css js)
        ∈ buildUploadEntries lib (prepareDeploymentFiles html css js)
    ∧ manifestUpload lib (prepareDeploymentFiles html css js)
        ∈ buildUploadEntries lib (prepareDeploymentFiles html css js) := by
  refine ⟨?_, ?_, ?_, ?_, ?_⟩
  · simp [buildManifestData, Function.comp_def]
  · simp [buildManifestData, zipUpload, manifestUpload]
  · exact upload_covers_entry lib _ (prepare_styles_ne html css js)
      (prepare_script_ne html css js)
  · simp [buildUploadEntries]
  · simp [buildUploadEntries]

lemma alnum_ne_hyphen (c : Char) (h : isLowerAlnum c = true) :
    decide (c = '-') = false := by
  cases hd : decide (c = '-') with
  | false => rfl
  | true =>
    have : c = '-' := of_decide_eq_true hd
    subst this
    exact absurd h (by decide)

lemma valid_not_hyphen_alnum (c : Char) (hv : isValidChar c = true)
    (hh : decide (c = '-') = false) : isLowerAlnum c = true := by
  unfold isValidChar at hv
  rw [hh, Bool.or_false] at hv
  exact hv

lemma toLowerChar_valid_id (a : Char) (ha : isValidChar a = true) :
    toLowerChar a = a := by
  by_cases h45 : a = '-'
  · subst h45
    decide
  · have ha' : isLowerAlnum a = true :=
      valid_not_hyphen_alnum a ha (decide_eq_false h45)
    have hn : (97 ≤ a.toNat ∧ a.toNat ≤ 122) ∨ (48 ≤ a.toNat ∧ a.toNat ≤ 57) := by
      simpa [isLowerAlnum] using ha'
    unfold toLowerChar
    rw [if_neg]
    intro hcon
    obtain ⟨h65, h90⟩ := hcon
    rcases hn with h | h <;> omega

lemma valid_not_space (a : Char) (ha : isValidChar a = true) :
    isJsSpace a = false := by
  by_cases h45 : a = '-'
  · subst h45
    decide
  · have ha' : isLowerAlnum a = true :=
      valid_not_hyphen_alnum a ha (decide_eq_false h45)
    have hn : (97 ≤ a.toNat ∧ a.toNat ≤ 122) ∨ (48 ≤ a.toNat ∧ a.toNat ≤ 57) := by
      simpa [isLowerAlnum] using ha'
    simp only [isJsSpace, Bool.or_eq_false_iff, decide_eq_false_iff_not]
    refine ⟨⟨⟨⟨⟨?_, ?_⟩, ?_⟩, ?_⟩, ?_⟩, ?_⟩ <;>
      (intro hh; subst hh; rcases hn with h | h <;> exact absurd h (by decide))

lemma replaceInvalid_valid (s : Str) : ∀ c ∈ replaceInvalid s, isValidChar c = true := by
  intro c hc
  obtain ⟨a, -, ha⟩ := List.mem_map.mp hc
  subst ha
  by_cases hv : isValidChar a = true
  · simp [hv]
  · rw [if_neg hv]
    decide

lemma collapseHyphens_sublist (l : Str) : (collapseHyphens l).Sublist l := by
  induction l with
  | nil => simp [collapseHyphens]
  | cons c rest ih =>
    cases rest with
    | nil => simp [collapseHyphens]
    | cons d t =>
      by_cases h : c = '-' ∧ d = '-'
      · simp only [collapseHyphens, if_pos h]
        exact ih.cons c
      · simp only [collapseHyphens, if_neg h]
        exact ih.cons₂ c

lemma dropTrailing_sublist (p : Char → Bool) (l : Str) : (dropTrailing p l).Sublist l := by
  induction l with
  | nil => simp [dropTrailing]
  | cons c rest ih =>
    simp only [dropTrailing]
    by_cases h : (dropTrailing p rest).isEmpty = true
    · rw [if_pos h]
      by_cases hc : p c = true
      · simp [hc]
      · simp only [hc, Bool.false_eq_true, if_false]
        exact (List.nil_sublist rest).cons₂ c
    · rw [if_neg h]
      exact ih.cons₂ c

lemma sanitizeCore_valid (s : Str) : ∀ c ∈ sanitizeCore s, isValidChar c = true := by
  intro c hc
  unfold sanitizeCore stripEdgeHyphens at hc
  have h2 := (dropTrailing_sublist (fun c => decide (c = '-')) _).subset hc
  have h3 := (List.dropWhile_suffix (fun c => decide (c = '-'))).sublist.subset h2
  have h4 := (collapseHyphens_sublist _).subset h3
  exact replaceInvalid_valid _ c h4

lemma dropWhile_head_false (p : Char → Bool) (l : Str) (c : Char)
    (h : (l.dropWhile p).head? = some c) : p c = false := by
  have hm := List.head?_dropWhile_not p l
  rw [h] at hm
  exact hm

lemma dropTrailing_head? (p : Char → Bool) (l : Str) :
    dropTrailing p l = [] ∨ (dropTrailing p l).head? = l.head? := by
  cases l with
  | nil => exact Or.inl rfl
  | cons c rest =>
    simp only [dropTrailing]
    by_cases h : (dropTrailing p rest).isEmpty = true
    · rw [if_pos h]
      by_cases hc : p c = true
      · rw [if_pos hc]
        exact Or.inl rfl
      · rw [if_neg hc]
        exact Or.inr rfl
    · rw [if_neg h]
      exact Or.inr rfl

lemma dropTrailing_getLast_false (p : Char → Bool) :
    ∀ (l : Str) (c : Char), (dropTrailing p l).getLast? = some c → p c = false := by
  intro l
  induction l with
  | nil =>
    intro c h
    simp [dropTrailing] at h
  | cons a rest ih =>
    intro c h
    simp only [dropTrailing] at h
    by_cases he : (dropTrailing p rest).isEmpty = true
    · rw [if_pos he] at h
      by_cases ha : p a = true
      · rw [if_pos ha] at h
        simp at h
      · rw [if_neg ha] at h
        simp at h
        subst h
        exact Bool.eq_false_iff.mpr ha
    · rw [if_neg he] at h
      have hne : dropTrailing p rest ≠ [] := by
        simpa [List.isEmpty_iff] using he
      cases hr : dropTrailing p rest with
      | nil => exact absurd hr hne
      | cons b t =>
        rw [hr, List.getLast?_cons_cons] at h
        exact ih c (by rw [hr]; exact h)

lemma sanitizeCore_starts (s : Str) (h : sanitizeCore s ≠ []) :
    startsWithAlnum (sanitizeCore s) = true := by
  cases hs : sanitizeCore s with
  | nil => exact absurd hs h
  | cons c t =>
    have hval : isValidChar c = true := sanitizeCore_valid s c (by rw [hs]; simp)
    have hhyp : decide (c = '-') = false := by
      have hcore : sanitizeCore s
          = dropTrailing (fun c => decide (c = '-'))
              ((collapseHyphens (replaceInvalid (jsTrim (s.map toLowerChar)))).dropWhile
                (fun c => decide (c = '-'))) := rfl
      rcases dropTrailing_head? (fun c => decide (c = '-'))
        ((collapseHyphens (replaceInvalid (jsTrim (s.map toLowerChar)))).dropWhile
          (fun c => decide (c = '-'))) with hnil | hhd
      · rw [hcore, hnil] at hs
        exact absurd hs.symm (List.cons_ne_nil c t)
      · rw [hcore] at hs
        rw [hs] at hhd
        exact dropWhile_head_false _ _ c hhd.symm
    rw [hs] at *
    simp only [startsWithAlnum]
    exact valid_not_hyphen_alnum c hval hhyp

lemma sanitizeCore_ends (s : Str) (h : sanitizeCore s ≠ []) :
    endsWithAlnum (sanitizeCore s) = true := by
  cases hg : (sanitizeCore s).getLast? with
  | none => exact absurd (List.getLast?_eq_none_iff.mp hg) h
  | some c =>
    have hmem : c ∈ sanitizeCore s := List.mem_of_mem_getLast? hg
    have hval := sanitizeCore_valid s c hmem
    have hhyp : decide (c = '-') = false := by
      have hg' : (dropTrailing (fun c => decide (c = '-'))
          ((collapseHyphens (replaceInvalid (jsTrim (s.map toLowerChar)))).dropWhile
            (fun c => decide (c = '-')))).getLast? = some c := hg
      exact dropTrailing_getLast_false _ _ c hg'
    simp only [endsWithAlnum, hg]
    exact valid_not_hyphen_alnum c hval hhyp

lemma map_toLowerChar_id : ∀ l : Str, (∀ c ∈ l, isValidChar c = true) →
    l.map toLowerChar = l := by
  intro l
  induction l with
  | nil => intro _; rfl
  | cons a rest ih =>
    intro h
    rw [List.map_cons, toLowerChar_valid_id a (h a (List.mem_cons_self a rest)),
      ih (fun c hc => h c (List.mem_cons_of_mem a hc))]

lemma dropWhile_id_of_head (p : Char → Bool) (l : Str)
    (h : ∀ c, l.head? = some c → p c = false) : l.dropWhile p = l := by
  cases l with
  | nil => rfl
  | cons a rest =>
    rw [List.dropWhile_cons]
    simp [h a rfl]

lemma dropTrailing_id (p : Char → Bool) : ∀ l : Str,
    (∀ c, l.getLast? = some c → p c = false) → dropTrailing p l = l := by
  intro l
  induction l with
  | nil => intro _; rfl
  | cons a rest ih =>
    intro h
    cases rest with
    | nil =>
      have ha := h a (by simp)
      simp [dropTrailing, ha]
    | cons b t =>
      have ih' := ih (fun c hc => h c (by rw [List.getLast?_cons_cons]; exact hc))
      rw [dropTrailing.eq_2, ih']
      simp

lemma replaceInvalid_id : ∀ l : Str, (∀ c ∈ l, isValidChar c = true) →
    replaceInvalid l = l := by
  intro l
  induction l with
  | nil => intro _; rfl
  | cons a rest ih =>
    intro h
    have ha := h a (List.mem_cons_self a rest)
    have ih' := ih (fun c hc => h c (List.mem_cons_of_mem a hc))
    simp only [replaceInvalid, List.map_cons] at ih' ⊢
    rw [if_pos ha, ih']

lemma collapseHyphens_id : ∀ l : Str, noDoubleHyphen l = true →
    collapseHyphens l = l := by
  intro l
  induction l with
  | nil => intro _; rfl
  | cons a rest ih =>
    intro h
    cases rest with
    | nil => rfl
    | cons b t =>
      simp only [noDoubleHyphen, Bool.and_eq_true] at h
      obtain ⟨h1, h2⟩ := h
      have hcond : ¬(a = '-' ∧ b = '-') := by
        rintro ⟨ha, hb⟩
        subst ha
        subst hb
        simp at h1
      simp only [collapseHyphens, if_neg hcond]
      rw [ih h2]

lemma jsTrim_id (l : Str) (h : ∀ c ∈ l, isValidChar c = true) : jsTrim l = l := by
  unfold jsTrim
  have h1 : l.dropWhile isJsSpace = l := by
    apply dropWhile_id_of_head
    intro c hc
    exact valid_not_space c (h c (List.mem_of_mem_head? hc))
  rw [h1]
  apply dropTrailing_id
  intro c hc
  exact valid_not_space c (h c (List.mem_of_mem_getLast? hc))

lemma sanitizeCore_fixed (y : Str) (hv : ∀ c ∈ y, isValidChar c = true)
    (hnd : noDoubleHyphen y = true) (hs : startsWithAlnum y = true)
    (he : endsWithAlnum y = true) : sanitizeCore y = y := by
  have hhead : ∀ c, y.head? = some c → decide (c = '-') = false := by
    intro c hc
    cases y with
    | nil => simp at hc
    | cons a t =>
      simp only [List.head?_cons, Option.some.injEq] at hc
      subst hc
      exact alnum_ne_hyphen _ (by simpa [startsWithAlnum] using hs)
  have hlast : ∀ c, y.getLast? = some c → decide (c = '-') = false := by
    intro c hc
    have : isLowerAlnum c = true := by
      simpa [endsWithAlnum, hc] using he
    exact alnum_ne_hyphen c this
  unfold sanitizeCore stripEdgeHyphens
  rw [map_toLowerChar_id y hv, jsTrim_id y hv, replaceInvalid_id y hv,
    collapseHyphens_id y hnd, dropWhile_id_of_head _ y hhead,
    dropTrailing_id _ y hlast]

lemma sanitize_fixed (y : Str) (hv : ∀ c ∈ y, isValidChar c = true)
    (hnd : noDoubleHyphen y = true) (hs : startsWithAlnum y = true)
    (he : endsWithAlnum y = true) (h3 : 3 ≤ y.length) (h58 : y.length ≤ 58) :
    sanitizeProjectName y = y := by
  have hcore : sanitizeCore y = y := sanitizeCore_fixed y hv hnd hs he
  have t1 : ¬(58 < (y.length)) := by omega
  have t2 : ¬(y.length < 3) := by omega
  unfold sanitizeProjectName
  rw [hcore]
  simp [sanitizeFinalize, hs, he, t1, t2]

lemma sanitize_fixed_trunc (A : Str) (hA : A.length = 55)
    (hv : ∀ c ∈ A ++ str "-app", isValidChar c = true)
    (hnd : noDoubleHyphen (A ++ str "-app") = true)
    (hs : startsWithAlnum (A ++ str "-app") = true) :
    sanitizeProjectName (A ++ str "-app") = A ++ str "-app" := by
  have h4 : (str "-app").length = 4 := by decide
  have he : endsWithAlnum (A ++ str "-app") = true := by
    unfold endsWithAlnum
    rw [List.getLast?_append, show (str "-app").getLast? = some 'p' by decide]
    exact (by decide : isLowerAlnum 'p' = true)
  have hcore : sanitizeCore (A ++ str "-app") = A ++ str "-app" :=
    sanitizeCore_fixed (A ++ str "-app") hv hnd hs he
  have hlen : (A ++ str "-app").length = 59 := by
    rw [List.length_append, hA, h4]
  have htake : (A ++ str "-app").take 55 = A := List.take_left' hA
  have t1 : 58 < (A ++ str "-app").length := by omega
  have t2 : ¬(A.length + (str "-app").length < 3) := by
    rw [hA, h4]
    omega
  unfold sanitizeProjectName
  rw [hcore]
  simp [sanitizeFinalize, hs, he, t1, t2, htake]

/-- C4 (amended): sanitization is idempotent on every input whose
sanitized result contains no two consecutive hyphens.  (The exception is
real and is exactly what the counterexample exhibits: an input sanitizing
to the empty core gains a `webmint--app` double hyphen that a second pass
collapses.  In particular idempotency also holds for the 59-character
truncation outputs: they pass the character stages unchanged and the
truncation branch reproduces them exactly.) -/
theorem C4_sanitize_idempotent_amended (x : Str)
    (hnd : noDoubleHyphen (sanitizeProjectName x) = true) :
    sanitizeProjectName (sanitizeProjectName x) = sanitizeProjectName x := by
  have h4 : (str "-app").length = 4 := by decide
  cases hs0 : sanitizeCore x with
  | nil =>
    have hy : sanitizeProjectName x = str "webmint--app" := by
      unfold sanitizeProjectName
      rw [hs0]
      decide
    rw [hy] at hnd
    exact absurd hnd (by decide)
  | cons c t =>
    have hne : sanitizeCore x ≠ [] := by
      rw [hs0]
      exact List.cons_ne_nil c t
    have hstarts := sanitizeCore_starts x hne
    have hends := sanitizeCore_ends x hne
    have hvalid := sanitizeCore_valid x
    by_cases hlen : 58 < (sanitizeCore x).length
    · have hmin55 : 55 ⊓ (sanitizeCore x).length = 55 :=
        inf_eq_left.mpr (by omega)
      have hy : sanitizeProjectName x = (sanitizeCore x).take 55 ++ str "-app" := by
        unfold sanitizeProjectName sanitizeFinalize
        simp [hstarts, hends, hlen, hmin55, h4]
      rw [hy] at hnd ⊢
      apply sanitize_fixed_trunc
      · rw [List.length_take]
        exact hmin55
      · intro d hd
        rcases List.mem_append.mp hd with hd1 | hd2
        · exact hvalid d ((List.take_sublist 55 (sanitizeCore x)).subset hd1)
        · exact (by decide : ∀ e ∈ str "-app", isValidChar e = true) d hd2
      · exact hnd
      · rw [hs0] at hstarts ⊢
        rw [show List.take 55 (c :: t) = c :: List.take 54 t from rfl,
          List.cons_append]
        simpa [startsWithAlnum] using hstarts
    · by_cases hmin : (sanitizeCore x).length < 3
      · have h8 : (str "webmint-").length = 8 := by decide
        have hy : sanitizeProjectName x
            = str "webmint-" ++ sanitizeCore x ++ str "-app" := by
          unfold sanitizeProjectName sanitizeFinalize
          simp [hstarts, hends, hlen, hmin]
        rw [hy] at hnd ⊢
        apply sanitize_fixed
        · intro d hd
          rcases List.mem_append.mp hd with hd1 | hd2
          · rcases List.mem_append.mp hd1 with hd3 | hd4
            · exact (by decide : ∀ e ∈ str "webmint-", isValidChar e = true) d hd3
            · exact hvalid d hd4
          · exact (by decide : ∀ e ∈ str "-app", isValidChar e = true) d hd2
        · exact hnd
        · have hw : str "webmint-" ++ sanitizeCore x ++ str "-app"
              = 'w' :: (str "ebmint-" ++ sanitizeCore x ++ str "-app") := by
            rw [show str "webmint-" = 'w' :: str "ebmint-" by decide]
            simp
          rw [hw]
          simp only [startsWithAlnum]
          decide
        · have hg : (str "webmint-" ++ sanitizeCore x ++ str "-app").getLast?
              = some 'p' := by
            rw [List.getLast?_append]
            rw [show (str "-app").getLast? = some 'p' by decide]
            rfl
          unfold endsWithAlnum
          rw [hg]
          decide
        · have h8' : (str "webmint-").length = 8 := h8
          rw [List.length_append, List.length_append, h8', h4]
          omega
        · rw [List.length_append, List.length_append, h8, h4]
          omega
      · have hy : sanitizeProjectName x = sanitizeCore x := by
          unfold sanitizeProjectName sanitizeFinalize
          simp [hstarts, hends, hlen, hmin]
        rw [hy] at hnd ⊢
        exact sanitize_fixed _ hvalid hnd hstarts hends (by omega) (by omega)

/-- C4 witness: idempotence holds at the concrete input `My Project!`,
whose sanitized form `my-project` has no double hyphen. -/
theorem C4_sanitize_idempotent_witness :
    sanitizeProjectName (sanitizeProjectName (str "My Project!"))
      = sanitizeProjectName (str "My Project!") :=
  C4_sanitize_idempotent_amended (str "My Project!") (by decide)

end WebMint
